import Mathlib

/-!
# Verification of the heimdex-agent job-orchestration core

A shallow embedding, in Lean, of the job orchestration subsystem of the
heimdex-agent repository: the durable job queue (`internal/db`,
`internal/catalog`), the scan executor (`Service.ExecuteScan`), the index
workflow fan-out/fan-in and upload retry worker (`Runner`), the upload error
classification (`internal/cloud`), and the byte-range playback path
(`internal/playback`).

Go machine integers (`int`, `int64`, `time.Duration`) are modelled as `Int`
with explicit two's-complement wraparound where the source can overflow.
Times are nanoseconds since an arbitrary origin, matching `time.Duration`
arithmetic. Stateful repository code is modelled as explicit effect traces
applied to a jobs table. Go strings are modelled as `List Char`.
-/

set_option maxRecDepth 8000

namespace Heimdex

/-! ## Data model (internal/catalog/types) -/

inductive JobStatus where
  | pending
  | running
  | completed
  | failed
deriving DecidableEq

inductive JobType where
  | scan
  | index
  | uploadScenes
  | generateThumbnails
deriving DecidableEq

/-- A row of the `jobs` table (`internal/catalog` `Job` struct). `progress`
is an `int` in Go; for `upload_scenes` jobs it carries the retry attempt
counter. Timestamps are nanoseconds. -/
structure Job where
  id : String
  type : JobType
  status : JobStatus
  sourceId : String
  fileId : String
  progress : Int
  error : String
  createdAt : Int
  updatedAt : Int
deriving DecidableEq

/-- A row of the `files` table (`internal/catalog` `File` struct). -/
structure File where
  id : String
  sourceId : String
  path : String
  filename : String
  size : Int
  mtime : Int
  fingerprint : String
  createdAt : Int
deriving DecidableEq

/-! ## Upload backoff (internal/catalog runner, `uploadBackoff`)

`time.Duration` is a signed 64-bit integer count of nanoseconds and Go
multiplication wraps around on overflow, so the loop `backoff *= 3` is
modelled with an explicit reduction into the `int64` range at each step. -/

/-- Reduce an integer into the signed 64-bit range, as Go's wrapping
multiplication does. -/
def int64Wrap (x : Int) : Int := (x + 2 ^ 63) % 2 ^ 64 - 2 ^ 63

def nsPerSecond : Int := 1000000000

/-- The loop body of `uploadBackoff`: `backoff *= 3` executed `n` times on an
`int64` number of nanoseconds. -/
def mulLoop : Nat → Int → Int
  | 0, b => b
  | n + 1, b => mulLoop n (int64Wrap (b * 3))

/-- `maxBackoff` constant of `uploadBackoff`: 10 minutes. -/
def maxBackoff : Int := 600 * nsPerSecond

/-- `uploadBackoff(attempt)` from the catalog runner: 10 s for attempt ≤ 0,
otherwise 10 s tripled `attempt` times (64-bit wrapping), clamped to
`maxBackoff` when the result exceeds it. -/
def uploadBackoff (attempt : Int) : Int :=
  if attempt ≤ 0 then 10 * nsPerSecond
  else
    let backoff := mulLoop attempt.toNat (10 * nsPerSecond)
    if backoff > maxBackoff then maxBackoff else backoff

/-! ## Repository effects

The orchestrator mutates durable state only through the repository methods
`UpdateJobStatus`, `UpdateJobProgress` and `CreateJob` (plus `UpsertFile`
during scans) and through the cloud uploader. A run of a dispatch function is
modelled as the ordered list of these calls. -/

inductive Effect where
  | updateStatus (jobId : String) (status : JobStatus) (error : String)
  | updateProgress (jobId : String) (progress : Int)
  | createJob (job : Job)
  | upsertFile (file : File)
  | cloudUpload (fileId : String)
deriving DecidableEq

/-- Whether an effect is a repository write (`cloudUpload` is the outbound
HTTP call, not a repository write). -/
def Effect.isRepoWrite : Effect → Bool
  | .cloudUpload _ => false
  | _ => true

/-- Semantics of one effect on the `jobs` table. `UpdateJobStatus` and
`UpdateJobProgress` both set `updated_at = datetime('now')` in SQL
(`SQLiteRepository`), modelled by the `now` argument. -/
def applyEffect (now : Int) (tbl : List Job) : Effect → List Job
  | .updateStatus jid st err =>
      tbl.map fun j =>
        if j.id = jid then { j with status := st, error := err, updatedAt := now } else j
  | .updateProgress jid p =>
      tbl.map fun j =>
        if j.id = jid then { j with progress := p, updatedAt := now } else j
  | .createJob job => tbl ++ [job]
  | .upsertFile _ => tbl
  | .cloudUpload _ => tbl

def applyEffects (now : Int) (tbl : List Job) (effs : List Effect) : List Job :=
  effs.foldl (applyEffect now) tbl

/-! ## Crash recovery (internal/db `DB.markInterruptedJobs`) -/

/-- `UPDATE jobs SET status = 'failed', error = 'interrupted by restart',
updated_at = datetime('now') WHERE status = 'running'`, run once when the
database is opened. -/
def markInterruptedJobs (now : Int) (tbl : List Job) : List Job :=
  tbl.map fun j =>
    if j.status = .running then
      { j with status := .failed, error := "interrupted by restart", updatedAt := now }
    else j

/-! ## Upload error classification (internal/cloud) -/

/-- Outcome of one `UploadScenes` call: success, a `*cloud.UploadError`
carrying the HTTP status code and response body, or any other (transport)
error with its message. -/
inductive UploadOutcome where
  | ok
  | httpErr (statusCode : Int) (body : String)
  | transportErr (msg : String)
deriving DecidableEq

/-- `UploadError.IsRetryable` (internal/cloud/http_client.go): true for
server errors (5xx); client errors (4xx) are permanent. -/
def isRetryableStatus (statusCode : Int) : Bool := 500 ≤ statusCode

/-- `Error()` string of the upload outcome (`UploadError.Error` formats
`"scene upload failed: HTTP %d: %s"`). -/
def uploadErrorString : UploadOutcome → String
  | .ok => ""
  | .httpErr code body => "scene upload failed: HTTP " ++ toString code ++ ": " ++ body
  | .transportErr msg => msg

/-! ## Inline first upload attempt (`Runner.uploadScenesToCloud`, tail) -/

/-- The pending `upload_scenes` retry job created by the first-attempt error
path: progress (= attempt counter) 0, carrying the file id and the error
string. -/
def mkUploadRetryJob (newJobId fileId errMsg : String) (now : Int) : Job :=
  { id := newJobId, type := .uploadScenes, status := .pending, sourceId := "",
    fileId := fileId, progress := 0, error := errMsg, createdAt := now, updatedAt := now }

/-- The completed `upload_scenes` marker job recorded after a successful
inline upload so the startup backfill will not create a duplicate. -/
def mkUploadMarkerJob (newJobId fileId : String) (now : Int) : Job :=
  { id := newJobId, type := .uploadScenes, status := .completed, sourceId := "",
    fileId := fileId, progress := 0, error := "", createdAt := now, updatedAt := now }

/-- Effects of `Runner.uploadScenesToCloud` after the `UploadScenes` call
returns. On success, record a completed marker job. On failure: if the error
is an `UploadError` that is not retryable, log and stop (no job); otherwise
create a pending retry job at attempt counter 0. -/
def uploadOutcomeEffects (newJobId fileId : String) (now : Int) : UploadOutcome → List Effect
  | .ok => [.createJob (mkUploadMarkerJob newJobId fileId now)]
  | .httpErr code body =>
      if ¬ isRetryableStatus code then []
      else [.createJob (mkUploadRetryJob newJobId fileId
              (uploadErrorString (.httpErr code body)) now)]
  | .transportErr msg => [.createJob (mkUploadRetryJob newJobId fileId msg now)]

/-! ## Upload retry worker (`Runner.processUploadScenesJob`) -/

/-- What reading and unmarshalling `<artifacts>/<fileId>/scenes/result.json`
produced: an I/O error, a JSON error, or a parsed payload with its scene
count. -/
inductive ArtifactRead where
  | unreadable (msg : String)
  | malformed (msg : String)
  | parsed (sceneCount : Nat)
deriving DecidableEq

/-- The environment a dispatch of an `upload_scenes` job runs in: whether the
pipeline runner and cloud client are configured, the `GetFile` result, the
scene artifact on disk, the resolved library id (`none` when
`resolveLibraryID` fails), and what the upload call would return. -/
structure UploadEnv where
  hasPipeRunner : Bool
  hasCloudClient : Bool
  file : Option File
  artifact : ArtifactRead
  libraryId : Option String
  outcome : UploadOutcome

/-- Effects of `Runner.uploadScenesToCloudRetry`: artifact read/parse errors
fail the job; zero scenes complete it; a missing library fails it; otherwise
the upload is attempted and the job is completed, failed (permanent HTTP
error) or returned to pending (retryable error). -/
def uploadRetryEffects (env : UploadEnv) (jobId fileId : String) : List Effect :=
  match env.artifact with
  | .unreadable msg => [.updateStatus jobId .failed ("cannot read scene output: " ++ msg)]
  | .malformed msg => [.updateStatus jobId .failed ("invalid scene JSON: " ++ msg)]
  | .parsed 0 => [.updateStatus jobId .completed ""]
  | .parsed (_ + 1) =>
      match env.libraryId with
      | none =>
          [.updateStatus jobId .failed
            "no library available: no library ID available: source has no mapping and no fallback configured"]
      | some _ =>
          Effect.cloudUpload fileId ::
            match env.outcome with
            | .ok => [.updateStatus jobId .completed ""]
            | .httpErr code body =>
                if ¬ isRetryableStatus code then
                  [.updateStatus jobId .failed
                    ("permanent error (HTTP " ++ toString code ++ "): " ++ body)]
                else [.updateStatus jobId .pending (uploadErrorString (.httpErr code body))]
            | .transportErr msg => [.updateStatus jobId .pending msg]

/-- Effects of `Runner.processUploadScenesJob`. The backoff gate comes first:
when `now − updated_at` is below `uploadBackoff(progress)` the dispatch
returns without touching anything. Then the attempt counter is advanced,
capped at 5 retries, configuration and the file row are checked, and the
retry upload runs. -/
def processUploadScenesJob (env : UploadEnv) (now : Int) (job : Job) : List Effect :=
  let delay := uploadBackoff job.progress
  if now - job.updatedAt < delay then []
  else
    let attempt := job.progress + 1
    if attempt > 5 then
      [.updateStatus job.id .failed ("max retries (5) exceeded: " ++ job.error)]
    else if ¬ env.hasPipeRunner then
      [.updateStatus job.id .failed "pipeline runner not configured"]
    else if ¬ env.hasCloudClient then
      [.updateStatus job.id .failed "cloud client not configured"]
    else
      match env.file with
      | none => [.updateStatus job.id .failed "file not found for retry"]
      | some file =>
          Effect.updateStatus job.id .running "" ::
            Effect.updateProgress job.id attempt ::
              uploadRetryEffects env job.id file.id

/-! ## Index workflow fan-in (`Runner.processIndexJob`, phase 2)

The faces and scenes workers each send exactly one `stepResult` on a
buffered channel of capacity 2; a closer goroutine waits for both workers
(`wg.Wait()`) and then closes the channel, so the `for sr := range results`
loop receives every report and ends only after both workers have returned.
`reports` below is the sequence of worker reports in arrival order; the
drain is the fold of the loop body over that whole sequence — the loop body
has no early exit. -/

/-- One worker's report: its step name and `nil` or an error message. -/
structure StepReport where
  name : String
  err : Option String
deriving DecidableEq

/-- State of the drain loop. `firstErr` and the progress-update effects
mirror the Go locals; `cancelled` records that `parallelCancel()` was called;
`consumed` counts loop iterations (one per received report). -/
structure DrainState where
  firstErr : Option String
  cancelled : Bool
  completedSteps : Nat
  consumed : Nat
  effects : List Effect
deriving DecidableEq

/-- Loop body of the drain (`for sr := range results`): on the first error,
record it and cancel the child context; on later errors, skip; on a success
before any error, bump `completedSteps` and write progress. -/
def drainStep (jobId : String) (totalSteps : Nat) (s : DrainState) (sr : StepReport) :
    DrainState :=
  let s := { s with consumed := s.consumed + 1 }
  match sr.err with
  | some e =>
      if s.firstErr = none then { s with firstErr := some e, cancelled := true } else s
  | none =>
      if s.firstErr = none then
        { s with completedSteps := s.completedSteps + 1,
                 effects := s.effects ++
                   [.updateProgress jobId ((s.completedSteps + 1) * 100 / totalSteps)] }
      else s

def initDrain (completedSteps0 : Nat) : DrainState :=
  { firstErr := none, cancelled := false, completedSteps := completedSteps0,
    consumed := 0, effects := [] }

def drainResults (jobId : String) (totalSteps : Nat) (s0 : DrainState)
    (reports : List StepReport) : DrainState :=
  reports.foldl (drainStep jobId totalSteps) s0

/-- Repository effects of phase 2 of `processIndexJob`: the progress updates
written during the drain, then — if any error was recorded — the transition
of the job to `failed` with the first error's message. -/
def phase2Effects (jobId : String) (totalSteps completedSteps0 : Nat)
    (reports : List StepReport) : List Effect :=
  let s := drainResults jobId totalSteps (initDrain completedSteps0) reports
  s.effects ++
    match s.firstErr with
    | some e => [.updateStatus jobId .failed e]
    | none => []

/-- The first error among the worker reports, in arrival order. -/
def firstErrOf (reports : List StepReport) : Option String :=
  (reports.filterMap StepReport.err).head?

/-! ## Scan executor (`Service.ExecuteScan` and `Service.createIndexJobs`)

The walk result, the per-file fingerprint/upsert outcome, the repository
read results and the generated job ids are inputs; the run is the list of
repository effects in program order. -/

/-- Status filter of the existing-index-job guard: pending, running or
completed index jobs block creation of a new one. -/
def isActiveIndexStatus (s : JobStatus) : Bool :=
  s == .pending || s == .running || s == .completed

/-- The `indexed[f.ID]` guard of `Service.createIndexJobs`: some existing
index job with this (non-empty) file id is pending, running or completed. -/
def hasActiveIndexJob (jobs : List Job) (fileId : String) : Bool :=
  jobs.any fun j =>
    j.type == .index && j.fileId == fileId && j.fileId != "" && isActiveIndexStatus j.status

/-- The pending index job created for a newly catalogued file. -/
def mkIndexJob (newId sourceId fileId : String) (now : Int) : Job :=
  { id := newId, type := .index, status := .pending, sourceId := sourceId,
    fileId := fileId, progress := 0, error := "", createdAt := now, updatedAt := now }

/-- Job-creation loop of `Service.createIndexJobs`: one pending index job per
owned file without an active index job, in file order. `idGen k` is the id
drawn for the k-th created job. -/
def createIndexJobsEffects (sourceId : String) (existingJobs : List Job)
    (idGen : Nat → String) (now : Int) : List File → Nat → List Effect
  | [], _ => []
  | f :: fs, k =>
      if hasActiveIndexJob existingJobs f.id then
        createIndexJobsEffects sourceId existingJobs idGen now fs k
      else
        Effect.createJob (mkIndexJob (idGen k) sourceId f.id now) ::
          createIndexJobsEffects sourceId existingJobs idGen now fs (k + 1)

/-- Whether `ctx.Done()` is closed at loop iteration `i`: the context model
is an optional iteration index from which cancellation is observed. -/
def ctxDone (cancelledFrom : Option Nat) (i : Nat) : Bool :=
  match cancelledFrom with
  | none => false
  | some k => k ≤ i

/-- Per-file loop of `ExecuteScan`: check cancellation, process the file
(`proc p = none` models a per-file error, which is logged and skipped),
then write progress `(i+1)·100/total`. Returns the effects and whether the
loop stopped on cancellation. -/
def scanLoopEffects (jobId : String) (proc : String → Option File)
    (cancelledFrom : Option Nat) (total : Nat) :
    List String → Nat → List Effect × Bool
  | [], _ => ([], false)
  | p :: ps, i =>
      if ctxDone cancelledFrom i then ([.updateStatus jobId .failed "cancelled"], true)
      else
        let fileEffs : List Effect :=
          match proc p with
          | some f => [.upsertFile f]
          | none => []
        let prog : Int := if total > 0 then (((i + 1) * 100 / total : Nat) : Int) else 0
        let rest := scanLoopEffects jobId proc cancelledFrom total ps (i + 1)
        (fileEffs ++ Effect.updateProgress jobId prog :: rest.1, rest.2)

/-- `Service.ExecuteScan` as an effect trace. `walk` is the outcome of
`filepath.WalkDir` (a walk-level error or the discovered video paths);
`ownedFiles` is what `GetFilesBySource` returns when `createIndexJobs` runs
and `existingJobs` what `ListJobs` returns there. -/
def executeScan (jobId sourceId : String) (walk : Except String (List String))
    (proc : String → Option File) (cancelledFrom : Option Nat)
    (ownedFiles : List File) (existingJobs : List Job) (idGen : Nat → String)
    (now : Int) : List Effect :=
  Effect.updateStatus jobId .running "" ::
    match walk with
    | .error e => [Effect.updateStatus jobId .failed e]
    | .ok files =>
        let loop := scanLoopEffects jobId proc cancelledFrom files.length files 0
        loop.1 ++
          if loop.2 then []
          else
            Effect.updateStatus jobId .completed "" ::
              createIndexJobsEffects sourceId existingJobs idGen now ownedFiles 0

/-- Detects the scan job's `completed` transition in a trace. -/
def isCompletedUpdate (jobId : String) : Effect → Bool
  | .updateStatus j .completed _ => j == jobId
  | _ => false

/-- Detects the creation of an index job in a trace. -/
def isIndexCreate : Effect → Bool
  | .createJob j => j.type == .index
  | _ => false

/-- A concrete catalogued file used when instantiating scan traces. -/
def scanFileA : File :=
  { id := "file-a", sourceId := "src-1", path := "/videos/a.mp4", filename := "a.mp4",
    size := 5, mtime := 0, fingerprint := "fp-a", createdAt := 0 }

/-- A concrete scan job row with progress 0, as `ScanSource` creates it. -/
def emptyScanJob : Job :=
  { id := "scan-e", type := .scan, status := .pending, sourceId := "src-1", fileId := "",
    progress := 0, error := "", createdAt := 0, updatedAt := 0 }

/-! ## Byte-range parsing and serving (internal/playback)

Go strings are modelled as `List Char`; the `strings` / `strconv` helpers
`ParseRange` uses are reimplemented below on that representation. -/

/-- View a Lean string literal as a Go string. -/
def strOf (s : String) : List Char := s.data

/-- `strings.HasPrefix s pre`. -/
def goStartsWith : List Char → List Char → Bool
  | _, [] => true
  | [], _ :: _ => false
  | c :: s, d :: pre => c == d && goStartsWith s pre

/-- The ASCII white space characters `strings.TrimSpace` strips (the inputs
at issue are ASCII). -/
def isGoSpace (c : Char) : Bool :=
  c == ' ' || c == '\t' || c == '\n' || c == '\r' || c == '\x0b' || c == '\x0c'

/-- `strings.TrimSpace`. -/
def goTrimSpace (s : List Char) : List Char :=
  ((s.dropWhile isGoSpace).reverse.dropWhile isGoSpace).reverse

/-- `strings.Index spec ","` followed by the cut `spec[:idx]`: `some` of the
part before the first comma when one exists, else `none`. -/
def takeUntilComma : List Char → Option (List Char)
  | [] => none
  | c :: s => if c == ',' then some [] else (takeUntilComma s).map (c :: ·)

/-- `strings.Split s sep` for a one-character separator. -/
def splitOnChar (sep : Char) : List Char → List (List Char)
  | [] => [[]]
  | c :: s =>
      let rest := splitOnChar sep s
      if c == sep then [] :: rest
      else
        match rest with
        | [] => [[c]]
        | g :: gs => (c :: g) :: gs

def digitVal (c : Char) : Option Nat :=
  if '0' ≤ c && c ≤ '9' then some (c.toNat - '0'.toNat) else none

/-- Accumulating base-10 digit parse; fails on any non-digit. -/
def parseDigitsAux : List Char → Nat → Option Nat
  | [], acc => some acc
  | c :: s, acc =>
      match digitVal c with
      | none => none
      | some d => parseDigitsAux s (acc * 10 + d)

def int64Max : Int := 2 ^ 63 - 1

def int64Min : Int := -(2 ^ 63)

/-- `strconv.ParseInt(s, 10, 64)`: optional sign, non-empty digit string,
64-bit range check (out-of-range input is an error, which `ParseRange`
treats like any other parse failure). -/
def goParseInt (s : List Char) : Option Int :=
  match s with
  | [] => none
  | c :: rest =>
      let signAndDigits : Bool × List Char :=
        if c == '+' then (false, rest)
        else if c == '-' then (true, rest)
        else (false, s)
      match signAndDigits.2 with
      | [] => none
      | _ =>
          match parseDigitsAux signAndDigits.2 0 with
          | none => none
          | some n =>
              let v : Int := if signAndDigits.1 then -(n : Int) else (n : Int)
              if v < int64Min ∨ int64Max < v then none else some v

def digitChar (d : Nat) : Char := Char.ofNat (48 + d)

/-- Fuel-driven digit expansion (the fuel only bounds the recursion depth;
`natToDec` always supplies enough). -/
def natToDecAux : Nat → Nat → List Char
  | 0, _ => []
  | fuel + 1, n =>
      if n < 10 then [digitChar n]
      else natToDecAux fuel (n / 10) ++ [digitChar (n % 10)]

/-- Decimal printing of a natural number (what `fmt.Sprintf("%d", n)`
produces for non-negative values). -/
def natToDec (n : Nat) : List Char := natToDecAux (n + 1) n

/-- Decimal printing of an `int64` value (`fmt.Sprintf("%d", n)`). -/
def intToDec (n : Int) : List Char :=
  if n < 0 then '-' :: natToDec (-n).toNat else natToDec n.toNat

inductive RangeErr where
  | invalid
  | unsat
deriving DecidableEq

/-- The parsed `Range{Start, End}` struct (`End` is spelt `stop` because
`end` is reserved in Lean). -/
structure ByteRange where
  start : Int
  stop : Int
deriving DecidableEq

/-- `Range.ContentLength`: `End - Start + 1`. -/
def ByteRange.contentLen (r : ByteRange) : Int := r.stop - r.start + 1

/-- `Range.ContentRange`: `fmt.Sprintf("bytes %d-%d/%d", Start, End, total)`. -/
def ByteRange.contentRangeStr (r : ByteRange) (total : Int) : List Char :=
  strOf "bytes " ++ intToDec r.start ++ ('-' :: intToDec r.stop) ++ ('/' :: intToDec total)

/-- The comma cut applied to the header after the `bytes=` prefix is
stripped (range.go lines 37-41). -/
def rangeSpecOf (header : List Char) : List Char :=
  let afterBytes := header.drop 6
  match takeUntilComma afterBytes with
  | none => afterBytes
  | some beforeComma => goTrimSpace beforeComma

/-- Final bounds check and end clamp of `ParseRange` (range.go lines 77-85):
`start > end || start >= size` is unsatisfiable; an end past the last byte is
clamped to `size - 1`. -/
def finishRange (start stop size : Int) : Except RangeErr (Option ByteRange) :=
  if start > stop ∨ start ≥ size then .error .unsat
  else .ok (some { start := start, stop := if stop ≥ size then size - 1 else stop })

/-- `ParseRange(header, size)` (internal/playback/range.go). `.ok none` is
the `nil, nil` result for an absent header. -/
def parseRange (header : List Char) (size : Int) : Except RangeErr (Option ByteRange) :=
  if header = [] then .ok none
  else if ¬ goStartsWith header (strOf "bytes=") then .error .invalid
  else
    match splitOnChar '-' (rangeSpecOf header) with
    | [p0, p1] =>
        if p0 = [] then
          match goParseInt p1 with
          | none => .error .invalid
          | some suffixLen =>
              if suffixLen ≤ 0 then .error .invalid
              else
                finishRange (if size - suffixLen < 0 then 0 else size - suffixLen)
                  (size - 1) size
        else
          match goParseInt p0 with
          | none => .error .invalid
          | some start =>
              if start < 0 then .error .invalid
              else if p1 = [] then finishRange start (size - 1) size
              else
                match goParseInt p1 with
                | none => .error .invalid
                | some stop => finishRange start stop size
    | _ => .error .invalid

/-- The observable part of the response `Server.ServeFile` writes: status
code, `Content-Length` and `Content-Range` headers, and how many file bytes
are copied into the body (0 for the 416 error response, whose plain-text
error body is not modelled). -/
structure HTTPResponse where
  status : Nat
  contentLength : Option Int
  contentRangeHeader : Option (List Char)
  bodyLen : Int
deriving DecidableEq

/-- `Server.ServeFile` (unnamed/part_009): 416 with `bytes */<size>` on an
unsatisfiable range; 200 with the full content when the header is absent or
invalid (`ErrInvalidRange` is deliberately ignored); 206 with the parsed
range otherwise. -/
def serveFile (rangeHeader : List Char) (size : Int) : HTTPResponse :=
  match parseRange rangeHeader size with
  | .error .unsat =>
      { status := 416, contentLength := none,
        contentRangeHeader := some (strOf "bytes */" ++ intToDec size), bodyLen := 0 }
  | .error .invalid =>
      { status := 200, contentLength := some size, contentRangeHeader := none,
        bodyLen := size }
  | .ok none =>
      { status := 200, contentLength := some size, contentRangeHeader := none,
        bodyLen := size }
  | .ok (some r) =>
      { status := 206, contentLength := some r.contentLen,
        contentRangeHeader := some (r.contentRangeStr size), bodyLen := r.contentLen }

/-- The bounds of a `bytes=` range spec fail to parse: there are not exactly
two dash-separated parts, or the part that `ParseRange` hands to
`strconv.ParseInt` does not parse. -/
def boundsUnparsable (rangeSpec : List Char) : Prop :=
  match splitOnChar '-' rangeSpec with
  | [p0, p1] =>
      if p0 = [] then goParseInt p1 = none
      else goParseInt p0 = none ∨ (p1 ≠ [] ∧ goParseInt p1 = none)
  | _ => True

/-- A syntactically invalid, non-empty Range header: it does not start with
`bytes=`, or its bounds do not parse. -/
def syntacticallyInvalid (header : List Char) : Prop :=
  header ≠ [] ∧
    (goStartsWith header (strOf "bytes=") = false ∨ boundsUnparsable (rangeSpecOf header))

/-- A fully configured upload environment fixture. -/
def uploadEnv0 : UploadEnv :=
  { hasPipeRunner := true, hasCloudClient := true, file := some scanFileA,
    artifact := .parsed 1, libraryId := some "lib-1", outcome := .ok }

/-- A pending `upload_scenes` job at attempt counter 0, freshly updated. -/
def pendingUploadJob : Job :=
  { id := "up-1", type := .uploadScenes, status := .pending, sourceId := "",
    fileId := "file-a", progress := 0, error := "", createdAt := 0, updatedAt := 0 }

end Heimdex

namespace Heimdex

/-! ## Theorems: backoff schedule -/

/-- Claim C2 fails as stated: `uploadBackoff` is NOT `10 s · 3^n` clamped to
600 s for every `n ≥ 0`. At attempt 19 the running product
`10^10 · 3^19` ns exceeds `2^63 − 1` and the wrapped `int64` value is
negative, so the `> maxBackoff` clamp does not fire and the function returns
a negative duration instead of 600 s. -/
theorem uploadBackoff_overflows_at_19 :
    uploadBackoff 19 ≠ 600 * nsPerSecond ∧
      uploadBackoff 19 = -6824129403709551616 := by
  constructor
  · decide
  · decide

/-- Claim C2 (amended): for every attempt counter `n` with `0 ≤ n ≤ 18`
(the range in which the 64-bit nanosecond arithmetic does not overflow),
`uploadBackoff n` equals `10 s · 3^n` clamped to the 600 s ceiling; in
particular it maps 0→10 s, 1→30 s, 2→90 s, 3→270 s, 4→600 s, 5→600 s and
10→600 s. -/
theorem uploadBackoff_clamped_schedule :
    (∀ n : Int, 0 ≤ n → n ≤ 18 →
        uploadBackoff n = min (10 * nsPerSecond * 3 ^ n.toNat) (600 * nsPerSecond)) ∧
      uploadBackoff 0 = 10 * nsPerSecond ∧
      uploadBackoff 1 = 30 * nsPerSecond ∧
      uploadBackoff 2 = 90 * nsPerSecond ∧
      uploadBackoff 3 = 270 * nsPerSecond ∧
      uploadBackoff 4 = 600 * nsPerSecond ∧
      uploadBackoff 5 = 600 * nsPerSecond ∧
      uploadBackoff 10 = 600 * nsPerSecond := by
  refine ⟨?_, by decide, by decide, by decide, by decide, by decide, by decide, by decide⟩
  intro n h0 h18
  interval_cases n <;> decide

/-- Concrete instance of the amended backoff schedule at attempt 3. -/
theorem uploadBackoff_clamped_schedule_witness :
    uploadBackoff 3 = min (10 * nsPerSecond * 3 ^ (3 : Int).toNat) (600 * nsPerSecond) :=
  uploadBackoff_clamped_schedule.1 3 (by decide) (by decide)

end Heimdex

namespace Heimdex

/-! ## Theorems: crash recovery sweep -/

/-- Claim C5: the startup crash-recovery sweep rewrites every row whose
status is running to failed with error "interrupted by restart", leaves
every other row unchanged in place, and afterwards the count of running
jobs is zero. -/
theorem markInterruptedJobs_sweep (now : Int) (tbl : List Job) :
    ((markInterruptedJobs now tbl).countP fun j => j.status == JobStatus.running) = 0 ∧
    (markInterruptedJobs now tbl).length = tbl.length ∧
    ∀ i : Nat, (markInterruptedJobs now tbl)[i]? =
      (tbl[i]?).map fun j =>
        if j.status = .running then
          { j with status := .failed, error := "interrupted by restart", updatedAt := now }
        else j := by
  refine ⟨?_, by simp [markInterruptedJobs], ?_⟩
  · rw [List.countP_eq_zero]
    intro j hj
    simp only [markInterruptedJobs, List.mem_map] at hj
    obtain ⟨a, _, rfl⟩ := hj
    by_cases h : a.status = .running <;> simp [h]
  · intro i
    simp [markInterruptedJobs, List.getElem?_map]

/-! ## Theorems: inline first upload attempt -/

/-- Claim C3: after the inline first upload attempt fails, a pending
`upload_scenes` retry job carrying the file id and attempt counter 0 is
created exactly when the error is retryable — never for a 4xx status code,
always for a 5xx status code or a transport error — and any pending job the
attempt creates stems from a retryable error. -/
theorem uploadOutcome_retry_iff (newJobId fileId : String) (now : Int)
    (outcome : UploadOutcome) :
    (∀ code body, outcome = .httpErr code body → 400 ≤ code → code < 500 →
        uploadOutcomeEffects newJobId fileId now outcome = []) ∧
    (∀ code body, outcome = .httpErr code body → 500 ≤ code →
        uploadOutcomeEffects newJobId fileId now outcome =
          [.createJob (mkUploadRetryJob newJobId fileId (uploadErrorString outcome) now)]) ∧
    (∀ msg, outcome = .transportErr msg →
        uploadOutcomeEffects newJobId fileId now outcome =
          [.createJob (mkUploadRetryJob newJobId fileId msg now)]) ∧
    (∀ j, Effect.createJob j ∈ uploadOutcomeEffects newJobId fileId now outcome →
        j.status = .pending →
        match outcome with
        | .httpErr code _ => 500 ≤ code
        | .transportErr _ => True
        | .ok => False) := by
  refine ⟨?_, ?_, ?_, ?_⟩
  · rintro code body rfl h4 h5
    have : ¬ isRetryableStatus code := by simp [isRetryableStatus]; omega
    simp [uploadOutcomeEffects, this]
  · rintro code body rfl h5
    have : isRetryableStatus code := by simp [isRetryableStatus]; omega
    simp [uploadOutcomeEffects, this]
  · rintro msg rfl
    simp [uploadOutcomeEffects]
  · intro j hj hpend
    cases outcome with
    | ok =>
        simp only [uploadOutcomeEffects, List.mem_singleton] at hj
        cases hj
        simp [mkUploadMarkerJob] at hpend
    | httpErr code body =>
        simp only [uploadOutcomeEffects] at hj
        by_cases h : isRetryableStatus code
        · simpa [isRetryableStatus] using h
        · simp [h] at hj
    | transportErr msg => trivial

/-- Concrete instance: a 422 response creates no retry job. -/
theorem uploadOutcome_retry_iff_witness :
    uploadOutcomeEffects "up-2" "file-a" 7 (.httpErr 422 "unprocessable") = [] :=
  (uploadOutcome_retry_iff "up-2" "file-a" 7 (.httpErr 422 "unprocessable")).1
    422 "unprocessable" rfl (by decide) (by decide)

/-! ## Theorems: upload retry backoff gate -/

/-- Claim C4: dispatching an `upload_scenes` job performs the upload attempt
only when `now − updated_at ≥ uploadBackoff(progress)`; below the delay the
dispatch produces no effect at all, so the job remains pending. -/
theorem processUpload_backoff_gate (env : UploadEnv) (now : Int) (job : Job) :
    (now - job.updatedAt < uploadBackoff job.progress →
        processUploadScenesJob env now job = []) ∧
    (∀ fid, Effect.cloudUpload fid ∈ processUploadScenesJob env now job →
        uploadBackoff job.progress ≤ now - job.updatedAt) := by
  constructor
  · intro h
    simp [processUploadScenesJob, h]
  · intro fid hmem
    by_cases h : now - job.updatedAt < uploadBackoff job.progress
    · simp [processUploadScenesJob, h] at hmem
    · omega

/-- Concrete instance: 5 ns after the last update, attempt counter 0
(delay 10 s), the dispatch does nothing. -/
theorem processUpload_backoff_gate_witness :
    processUploadScenesJob uploadEnv0 5 pendingUploadJob = [] :=
  (processUpload_backoff_gate uploadEnv0 5 pendingUploadJob).1 (by decide)

/-- Claim C10: a dispatch that arrives before the backoff delay has elapsed
performs no repository write: applied to any jobs table it is the identity,
so status, progress, error and updated_at of the job are all left exactly as
they were. -/
theorem processUpload_skip_frame (env : UploadEnv) (now : Int) (job : Job)
    (tbl : List Job) (h : now - job.updatedAt < uploadBackoff job.progress) :
    processUploadScenesJob env now job = [] ∧
    applyEffects now tbl (processUploadScenesJob env now job) = tbl := by
  have he : processUploadScenesJob env now job = [] := by
    simp [processUploadScenesJob, h]
  exact ⟨he, by rw [he]; rfl⟩

/-- Concrete instance of the skipped-dispatch frame property. -/
theorem processUpload_skip_frame_witness :
    processUploadScenesJob uploadEnv0 5 pendingUploadJob = [] ∧
    applyEffects 5 [pendingUploadJob] (processUploadScenesJob uploadEnv0 5 pendingUploadJob) =
      [pendingUploadJob] :=
  processUpload_skip_frame uploadEnv0 5 pendingUploadJob [pendingUploadJob] (by decide)

end Heimdex

namespace Heimdex

/-! ## Theorems: index workflow fan-in -/

theorem drainStep_consumed (jobId : String) (totalSteps : Nat) (s : DrainState)
    (sr : StepReport) :
    (drainStep jobId totalSteps s sr).consumed = s.consumed + 1 := by
  rcases sr with ⟨nm, err⟩
  cases err <;> simp only [drainStep] <;> split <;> rfl

theorem drainStep_after_error (jobId : String) (totalSteps : Nat) (s : DrainState)
    (sr : StepReport) (e : String) (h : s.firstErr = some e) :
    drainStep jobId totalSteps s sr = { s with consumed := s.consumed + 1 } := by
  rcases sr with ⟨nm, err⟩
  cases err <;> simp [drainStep, h]

theorem drainResults_after_error (jobId : String) (totalSteps : Nat) (e : String) :
    ∀ (reports : List StepReport) (s : DrainState), s.firstErr = some e →
      drainResults jobId totalSteps s reports =
        { s with consumed := s.consumed + reports.length } := by
  intro reports
  induction reports with
  | nil => intro s h; simp [drainResults]
  | cons r rs ih =>
      intro s h
      have hstep := drainStep_after_error jobId totalSteps s r e h
      have : drainResults jobId totalSteps s (r :: rs) =
          drainResults jobId totalSteps (drainStep jobId totalSteps s r) rs := rfl
      rw [this, hstep, ih _ (by simpa using h)]
      simp [Nat.add_assoc, Nat.add_comm 1 rs.length]

theorem drainResults_consumed (jobId : String) (totalSteps : Nat) :
    ∀ (reports : List StepReport) (s : DrainState),
      (drainResults jobId totalSteps s reports).consumed = s.consumed + reports.length := by
  intro reports
  induction reports with
  | nil => intro s; simp [drainResults]
  | cons r rs ih =>
      intro s
      have : drainResults jobId totalSteps s (r :: rs) =
          drainResults jobId totalSteps (drainStep jobId totalSteps s r) rs := rfl
      rw [this, ih, drainStep_consumed]
      simp only [List.length_cons]
      omega

theorem drainResults_first_error (jobId : String) (totalSteps : Nat) (e : String) :
    ∀ (reports : List StepReport) (s : DrainState),
      s.firstErr = none → firstErrOf reports = some e →
      (drainResults jobId totalSteps s reports).firstErr = some e ∧
      (drainResults jobId totalSteps s reports).cancelled = true := by
  intro reports
  induction reports with
  | nil => intro s _ hf; simp [firstErrOf] at hf
  | cons r rs ih =>
      intro s h hf
      have hfold : drainResults jobId totalSteps s (r :: rs) =
          drainResults jobId totalSteps (drainStep jobId totalSteps s r) rs := rfl
      rcases r with ⟨nm, err⟩
      cases err with
      | none =>
          have hf' : firstErrOf rs = some e := by simpa [firstErrOf] using hf
          have hs : (drainStep jobId totalSteps ⟨s.firstErr, s.cancelled, s.completedSteps,
              s.consumed, s.effects⟩ ⟨nm, none⟩).firstErr = none := by
            simp [drainStep, h]
          rw [hfold]
          exact ih _ (by cases s; simpa using hs) hf'
      | some e2 =>
          have he2 : e2 = e := by simpa [firstErrOf] using hf
          subst he2
          have hstep : drainStep jobId totalSteps s ⟨nm, some e2⟩ =
              { s with consumed := s.consumed + 1, firstErr := some e2, cancelled := true } := by
            simp [drainStep, h]
          rw [hfold, hstep,
            drainResults_after_error jobId totalSteps e2 rs _ (by rfl)]
          exact ⟨rfl, rfl⟩

/-- Claim C1: the fan-in drain of `processIndexJob` consumes every worker
report (one loop iteration per report; the channel closes only after both
workers have returned, so `processIndexJob` cannot return while a worker is
still running), and when some worker reports an error the child context is
cancelled on the first such report and the job's final repository write is
the transition to `failed` carrying that first error's message. -/
theorem indexFanoutDrain (jobId : String) (totalSteps completedSteps0 : Nat)
    (reports : List StepReport) (e : String) (hfirst : firstErrOf reports = some e) :
    (drainResults jobId totalSteps (initDrain completedSteps0) reports).consumed =
      reports.length ∧
    (drainResults jobId totalSteps (initDrain completedSteps0) reports).cancelled = true ∧
    ∃ pre, phase2Effects jobId totalSteps completedSteps0 reports =
      pre ++ [Effect.updateStatus jobId .failed e] := by
  have hc := drainResults_consumed jobId totalSteps reports (initDrain completedSteps0)
  have hfe := drainResults_first_error jobId totalSteps e reports (initDrain completedSteps0)
    (by rfl) hfirst
  refine ⟨by simpa [initDrain] using hc, hfe.2, ?_⟩
  exact ⟨(drainResults jobId totalSteps (initDrain completedSteps0) reports).effects,
    by simp [phase2Effects, hfe.1]⟩

/-- Concrete instance: the faces worker fails first, the scenes worker
returns through cancellation; both reports are drained and the job fails
with the faces error. -/
theorem indexFanoutDrain_witness :
    (drainResults "job-1" 3 (initDrain 1)
        [⟨"faces", some "faces pipeline error: exit 1"⟩, ⟨"scenes", none⟩]).consumed = 2 ∧
    (drainResults "job-1" 3 (initDrain 1)
        [⟨"faces", some "faces pipeline error: exit 1"⟩, ⟨"scenes", none⟩]).cancelled = true ∧
    ∃ pre, phase2Effects "job-1" 3 1
        [⟨"faces", some "faces pipeline error: exit 1"⟩, ⟨"scenes", none⟩] =
      pre ++ [Effect.updateStatus "job-1" .failed "faces pipeline error: exit 1"] :=
  indexFanoutDrain "job-1" 3 1
    [⟨"faces", some "faces pipeline error: exit 1"⟩, ⟨"scenes", none⟩]
    "faces pipeline error: exit 1" (by rfl)

end Heimdex

namespace Heimdex

/-! ## Theorems: scan executor -/

theorem scanLoop_not_cancelled (jobId : String) (proc : String → Option File) (total : Nat) :
    ∀ (files : List String) (i : Nat),
      (scanLoopEffects jobId proc none total files i).2 = false := by
  intro files
  induction files with
  | nil => intro i; rfl
  | cons p ps ih =>
      intro i
      simp [scanLoopEffects, ctxDone, ih]

theorem createIndexJobs_mem (sourceId : String) (existingJobs : List Job)
    (idGen : Nat → String) (now : Int) :
    ∀ (fs : List File) (k : Nat) (f : File), f ∈ fs →
      hasActiveIndexJob existingJobs f.id = false →
      ∃ m, Effect.createJob (mkIndexJob (idGen m) sourceId f.id now) ∈
        createIndexJobsEffects sourceId existingJobs idGen now fs k := by
  intro fs
  induction fs with
  | nil => intro k f hf; simp at hf
  | cons g gs ih =>
      intro k f hf hguard
      by_cases hg : hasActiveIndexJob existingJobs g.id
      · have he : createIndexJobsEffects sourceId existingJobs idGen now (g :: gs) k =
            createIndexJobsEffects sourceId existingJobs idGen now gs k := by
          simp [createIndexJobsEffects, hg]
        rcases List.mem_cons.mp hf with rfl | hmem
        · simp [hguard] at hg
        · rw [he]; exact ih k f hmem hguard
      · have he : createIndexJobsEffects sourceId existingJobs idGen now (g :: gs) k =
            Effect.createJob (mkIndexJob (idGen k) sourceId g.id now) ::
              createIndexJobsEffects sourceId existingJobs idGen now gs (k + 1) := by
          simp [createIndexJobsEffects, hg]
        rcases List.mem_cons.mp hf with rfl | hmem
        · exact ⟨k, by rw [he]; exact List.mem_cons_self _ _⟩
        · rcases ih (k + 1) f hmem hguard with ⟨m, hm⟩
          exact ⟨m, by rw [he]; exact List.mem_cons_of_mem _ hm⟩

theorem createIndexJobs_sound (sourceId : String) (existingJobs : List Job)
    (idGen : Nat → String) (now : Int) :
    ∀ (fs : List File) (k : Nat) (e : Effect),
      e ∈ createIndexJobsEffects sourceId existingJobs idGen now fs k →
      ∃ m f, f ∈ fs ∧ hasActiveIndexJob existingJobs f.id = false ∧
        e = Effect.createJob (mkIndexJob (idGen m) sourceId f.id now) := by
  intro fs
  induction fs with
  | nil => intro k e he; simp [createIndexJobsEffects] at he
  | cons g gs ih =>
      intro k e he
      by_cases hg : hasActiveIndexJob existingJobs g.id
      · have heq : createIndexJobsEffects sourceId existingJobs idGen now (g :: gs) k =
            createIndexJobsEffects sourceId existingJobs idGen now gs k := by
          simp [createIndexJobsEffects, hg]
        rw [heq] at he
        rcases ih k e he with ⟨m, f, hf, hfg, hef⟩
        exact ⟨m, f, List.mem_cons_of_mem g hf, hfg, hef⟩
      · have heq : createIndexJobsEffects sourceId existingJobs idGen now (g :: gs) k =
            Effect.createJob (mkIndexJob (idGen k) sourceId g.id now) ::
              createIndexJobsEffects sourceId existingJobs idGen now gs (k + 1) := by
          simp [createIndexJobsEffects, hg]
        rw [heq, List.mem_cons] at he
        cases he with
        | inl h => exact ⟨k, g, List.mem_cons_self g gs, by simpa using hg, h⟩
        | inr h =>
            rcases ih (k + 1) e h with ⟨m, f, hf, hfg, hef⟩
            exact ⟨m, f, List.mem_cons_of_mem g hf, hfg, hef⟩

/-- Claim C6 fails as stated: in the trace of an error-free scan of one new
file, the `completed` transition of the scan job sits at position 3, before
the creation of the index job at position 4 — `ExecuteScan` marks the scan
job completed first and creates index jobs afterwards, not the other way
round. -/
theorem executeScan_completed_first_counterexample :
    ((executeScan "scan-1" "src-1" (Except.ok ["/videos/a.mp4"])
        (fun _ => some scanFileA) none [scanFileA] [] (fun _ => "idx-0") 7).findIdx?
          (isCompletedUpdate "scan-1") = some 3) ∧
    ((executeScan "scan-1" "src-1" (Except.ok ["/videos/a.mp4"])
        (fun _ => some scanFileA) none [scanFileA] [] (fun _ => "idx-0") 7).findIdx?
          isIndexCreate = some 4) := by
  constructor <;> decide

/-- Claim C6 (amended): when `ExecuteScan` finishes its walk without error
and without cancellation, it transitions the scan job to `completed` and
only then creates one pending index job for every file owned by the source
that does not already have a pending, running or completed index job (job
creation happens after the completed transition); every job the creation
loop emits is such a pending index job for such a file. -/
theorem executeScan_completed_then_creates (jobId sourceId : String)
    (files : List String) (proc : String → Option File) (ownedFiles : List File)
    (existingJobs : List Job) (idGen : Nat → String) (now : Int) :
    (executeScan jobId sourceId (.ok files) proc none ownedFiles existingJobs idGen now =
      Effect.updateStatus jobId .running "" ::
        (scanLoopEffects jobId proc none files.length files 0).1 ++
          Effect.updateStatus jobId .completed "" ::
            createIndexJobsEffects sourceId existingJobs idGen now ownedFiles 0) ∧
    (∀ f ∈ ownedFiles, hasActiveIndexJob existingJobs f.id = false →
      ∃ m, Effect.createJob (mkIndexJob (idGen m) sourceId f.id now) ∈
        createIndexJobsEffects sourceId existingJobs idGen now ownedFiles 0) ∧
    (∀ e ∈ createIndexJobsEffects sourceId existingJobs idGen now ownedFiles 0,
      ∃ m f, f ∈ ownedFiles ∧ hasActiveIndexJob existingJobs f.id = false ∧
        e = Effect.createJob (mkIndexJob (idGen m) sourceId f.id now)) := by
  refine ⟨?_, fun f hf hg => createIndexJobs_mem sourceId existingJobs idGen now
    ownedFiles 0 f hf hg,
    fun e he => createIndexJobs_sound sourceId existingJobs idGen now ownedFiles 0 e he⟩
  simp [executeScan, scanLoop_not_cancelled]

/-- Concrete instance: the amended creation guarantee for a single new file
with no existing jobs. -/
theorem executeScan_completed_then_creates_witness :
    ∃ _ : Nat, Effect.createJob (mkIndexJob "idx-0" "src-1" scanFileA.id 7) ∈
      createIndexJobsEffects "src-1" [] (fun _ => "idx-0") 7 [scanFileA] 0 :=
  (executeScan_completed_then_creates "scan-1" "src-1" ["/videos/a.mp4"]
      (fun _ => some scanFileA) [scanFileA] [] (fun _ => "idx-0") 7).2.1
    scanFileA (by decide) (by decide)

/-- Claim C7 fails as stated: a scan of an empty directory leaves the scan
job at progress 0 (no progress update is ever issued, and `UpdateJobStatus`
does not touch the progress column), not 100. -/
theorem executeScan_empty_progress_counterexample :
    applyEffects 9 [emptyScanJob]
        (executeScan "scan-e" "src-1" (Except.ok []) (fun _ => none) none [] []
          (fun _ => "idx-0") 9) =
      [{ emptyScanJob with status := .completed, updatedAt := 9 }] ∧
    ({ emptyScanJob with status := .completed, updatedAt := 9 }).progress ≠ 100 := by
  constructor <;> decide

/-- Claim C7 (amended): a scan over an empty directory creates zero file
rows and zero index jobs and transitions the scan job to `completed`; the
whole trace is the `running` and `completed` status updates, and applying it
to any jobs table only rewrites the scan job's status, error and updated_at,
leaving its progress at its prior value (0 for a fresh scan job), not 100. -/
theorem executeScan_empty_dir (jobId sourceId : String) (proc : String → Option File)
    (cancelledFrom : Option Nat) (existingJobs : List Job) (idGen : Nat → String)
    (now : Int) :
    executeScan jobId sourceId (.ok []) proc cancelledFrom [] existingJobs idGen now =
      [Effect.updateStatus jobId .running "", Effect.updateStatus jobId .completed ""] ∧
    ∀ tbl : List Job,
      applyEffects now tbl
          (executeScan jobId sourceId (.ok []) proc cancelledFrom [] existingJobs idGen now) =
        tbl.map fun j =>
          if j.id = jobId then { j with status := .completed, error := "", updatedAt := now }
          else j := by
  have htrace : executeScan jobId sourceId (.ok []) proc cancelledFrom [] existingJobs
      idGen now =
      [Effect.updateStatus jobId .running "", Effect.updateStatus jobId .completed ""] := by
    simp [executeScan, scanLoopEffects, createIndexJobsEffects]
  refine ⟨htrace, fun tbl => ?_⟩
  rw [htrace]
  show ((tbl.map _).map _) = _
  rw [List.map_map]
  congr 1
  funext j
  by_cases h : j.id = jobId <;> simp [Function.comp, h]

end Heimdex

namespace Heimdex

/-! ## Theorems: decimal printing and parsing round trip -/

theorem digitVal_digitChar (d : Nat) (h : d < 10) : digitVal (digitChar d) = some d := by
  interval_cases d <;> decide

theorem natToDecAux_fuel :
    ∀ (fuel1 fuel2 n : Nat), n < fuel1 → n < fuel2 →
      natToDecAux fuel1 n = natToDecAux fuel2 n := by
  intro fuel1
  induction fuel1 with
  | zero => intro fuel2 n h1; omega
  | succ f ih =>
      intro fuel2 n h1 h2
      cases fuel2 with
      | zero => omega
      | succ g =>
          by_cases h : n < 10
          · simp [natToDecAux, h]
          · have hdiv : n / 10 < n := Nat.div_lt_self (by omega) (by omega)
            simp only [natToDecAux, h, if_false]
            rw [ih g (n / 10) (by omega) (by omega)]

theorem natToDec_base (n : Nat) (h : n < 10) : natToDec n = [digitChar n] := by
  rw [natToDec, natToDecAux, if_pos h]

theorem natToDec_step (n : Nat) (h : ¬ n < 10) :
    natToDec n = natToDec (n / 10) ++ [digitChar (n % 10)] := by
  have hdiv : n / 10 < n := Nat.div_lt_self (by omega) (by omega)
  rw [natToDec, natToDecAux, if_neg h, natToDec]
  rw [natToDecAux_fuel n (n / 10 + 1) (n / 10) (by omega) (by omega)]

theorem natToDec_digits (n : Nat) : ∀ c ∈ natToDec n, (digitVal c).isSome := by
  induction n using Nat.strong_induction_on with
  | _ n ih =>
      by_cases h : n < 10
      · rw [natToDec_base n h]
        intro c hc
        rw [List.mem_singleton] at hc
        subst hc
        rw [digitVal_digitChar n h]
        rfl
      · rw [natToDec_step n h]
        intro c hc
        rcases List.mem_append.mp hc with hc | hc
        · exact ih (n / 10) (Nat.div_lt_self (by omega) (by omega)) c hc
        · rw [List.mem_singleton] at hc
          subst hc
          rw [digitVal_digitChar (n % 10) (Nat.mod_lt n (by omega))]
          rfl

theorem natToDec_ne_nil (n : Nat) : natToDec n ≠ [] := by
  by_cases h : n < 10
  · rw [natToDec_base n h]; simp
  · rw [natToDec_step n h]; simp

theorem digit_not_special (c : Char) (h : (digitVal c).isSome) :
    (c == ',') = false ∧ (c == '-') = false ∧ (c == '+') = false := by
  refine ⟨?_, ?_, ?_⟩
  · by_contra hc
    rw [Bool.not_eq_false, beq_iff_eq] at hc
    subst hc
    exact absurd h (by decide)
  · by_contra hc
    rw [Bool.not_eq_false, beq_iff_eq] at hc
    subst hc
    exact absurd h (by decide)
  · by_contra hc
    rw [Bool.not_eq_false, beq_iff_eq] at hc
    subst hc
    exact absurd h (by decide)

theorem parseDigitsAux_append (a : List Char) :
    ∀ (b : List Char) (acc : Nat),
      parseDigitsAux (a ++ b) acc =
        match parseDigitsAux a acc with
        | none => none
        | some m => parseDigitsAux b m := by
  induction a with
  | nil => intro b acc; rfl
  | cons c cs ih =>
      intro b acc
      cases hd : digitVal c with
      | none => simp [parseDigitsAux, hd]
      | some d => simp [parseDigitsAux, hd, ih]

theorem parseDigitsAux_natToDec (n : Nat) :
    ∀ acc : Nat,
      parseDigitsAux (natToDec n) acc = some (acc * 10 ^ (natToDec n).length + n) := by
  induction n using Nat.strong_induction_on with
  | _ n ih =>
      intro acc
      by_cases h : n < 10
      · rw [natToDec_base n h]
        simp [parseDigitsAux, digitVal_digitChar n h]
      · rw [natToDec_step n h, parseDigitsAux_append,
          ih (n / 10) (Nat.div_lt_self (by omega) (by omega)) acc]
        simp only [parseDigitsAux, digitVal_digitChar (n % 10) (Nat.mod_lt n (by omega)),
          List.length_append, List.length_cons, List.length_nil, Nat.zero_add]
        congr 1
        rw [pow_succ]
        have hm : 10 * (n / 10) + n % 10 = n := Nat.div_add_mod n 10
        set L := (natToDec (n / 10)).length
        have : (acc * 10 ^ L + n / 10) * 10 + n % 10 =
            acc * 10 ^ L * 10 + (10 * (n / 10) + n % 10) := by ring
        rw [this, hm, Nat.mul_assoc]

theorem goParseInt_natToDec (n : Nat) (h : (n : Int) ≤ int64Max) :
    goParseInt (natToDec n) = some (n : Int) := by
  obtain ⟨c, rest, hcr⟩ : ∃ c rest, natToDec n = c :: rest := by
    cases hnd : natToDec n with
    | nil => exact absurd hnd (natToDec_ne_nil n)
    | cons c rest => exact ⟨c, rest, rfl⟩
  have hdig : (digitVal c).isSome := natToDec_digits n c (by rw [hcr]; exact List.mem_cons_self c rest)
  have hspec := digit_not_special c hdig
  have hparse : parseDigitsAux (c :: rest) 0 = some n := by
    rw [← hcr, parseDigitsAux_natToDec n 0]
    simp
  rw [hcr]
  simp only [goParseInt, hspec.2.2, hspec.2.1, if_false, Bool.false_eq_true]
  rw [hparse]
  have hmin : ¬ ((n : Int) < int64Min ∨ int64Max < (n : Int)) := by
    have : int64Min < 0 := by decide
    omega
  simp only [if_neg hmin]

end Heimdex

namespace Heimdex

/-! ## Theorems: Go string helper lemmas -/

theorem goStartsWith_append (pre : List Char) :
    ∀ t : List Char, goStartsWith (pre ++ t) pre = true := by
  induction pre with
  | nil => intro t; cases t <;> rfl
  | cons c cs ih => intro t; simp [goStartsWith, ih]

theorem takeUntilComma_none (s : List Char) (h : ∀ c ∈ s, (c == ',') = false) :
    takeUntilComma s = none := by
  induction s with
  | nil => rfl
  | cons c cs ih =>
      have hc : (c == ',') = false := h c (List.mem_cons_self c cs)
      have ih' := ih fun x hx => h x (List.mem_cons_of_mem c hx)
      simp [takeUntilComma, hc, ih']

theorem splitOnChar_dash_append (ds : List Char) (h : ∀ c ∈ ds, (c == '-') = false) :
    splitOnChar '-' (ds ++ ['-']) = [ds, []] := by
  induction ds with
  | nil => rfl
  | cons c cs ih =>
      have hc : (c == '-') = false := h c (List.mem_cons_self c cs)
      have ih' := ih fun x hx => h x (List.mem_cons_of_mem c hx)
      simp [splitOnChar, hc, ih']

theorem intToDec_pos (s : Int) (h : 0 < s) : intToDec s = natToDec s.toNat := by
  rw [intToDec, if_neg (by omega)]

theorem goParseInt_intToDec_pos (s : Int) (h0 : 0 < s) (hm : s ≤ int64Max) :
    goParseInt (intToDec s) = some s := by
  rw [intToDec_pos s h0, goParseInt_natToDec s.toNat (by omega)]
  congr 1
  omega

end Heimdex

namespace Heimdex

/-! ## Theorems: byte-range boundary behaviour -/

theorem parseRange_first_byte (s : Int) (hs : 0 < s) :
    parseRange (strOf "bytes=0-0") s = .ok (some ⟨0, 0⟩) := by
  have hpr : parseRange (strOf "bytes=0-0") s = finishRange 0 0 s := rfl
  rw [hpr]
  simp only [finishRange]
  rw [if_neg (by omega), if_neg (by omega)]

theorem serveFile_first_byte (s : Int) (hs : 0 < s) :
    serveFile (strOf "bytes=0-0") s =
      { status := 206, contentLength := some 1,
        contentRangeHeader := some (strOf "bytes 0-0/" ++ intToDec s), bodyLen := 1 } := by
  simp only [serveFile, parseRange_first_byte s hs]
  rfl

theorem parseRange_size_dash (s : Int) (hpos : 0 < s) (hmax : s ≤ int64Max) :
    parseRange (strOf "bytes=" ++ (intToDec s ++ ['-'])) s = .error .unsat := by
  have hdigits : ∀ c ∈ intToDec s, (digitVal c).isSome := by
    rw [intToDec_pos s hpos]; exact natToDec_digits s.toNat
  have hne : strOf "bytes=" ++ (intToDec s ++ ['-']) ≠ [] := by simp [strOf]
  have hsw : goStartsWith (strOf "bytes=" ++ (intToDec s ++ ['-'])) (strOf "bytes=") = true :=
    goStartsWith_append (strOf "bytes=") (intToDec s ++ ['-'])
  have hdrop : (strOf "bytes=" ++ (intToDec s ++ ['-'])).drop 6 = intToDec s ++ ['-'] := by
    have h6 : (6 : Nat) = (strOf "bytes=").length := rfl
    rw [h6, List.drop_left]
  have hcomma : takeUntilComma (intToDec s ++ ['-']) = none := by
    apply takeUntilComma_none
    intro c hc
    rcases List.mem_append.mp hc with hc | hc
    · exact (digit_not_special c (hdigits c hc)).1
    · rw [List.mem_singleton] at hc; subst hc; rfl
  have hspec : rangeSpecOf (strOf "bytes=" ++ (intToDec s ++ ['-'])) =
      intToDec s ++ ['-'] := by
    simp only [rangeSpecOf, hdrop, hcomma]
  have hsplit : splitOnChar '-' (intToDec s ++ ['-']) = [intToDec s, []] := by
    apply splitOnChar_dash_append
    intro c hc
    exact (digit_not_special c (hdigits c hc)).2.1
  have hp0ne : intToDec s ≠ [] := by
    rw [intToDec_pos s hpos]; exact natToDec_ne_nil s.toNat
  have hparse : goParseInt (intToDec s) = some s := goParseInt_intToDec_pos s hpos hmax
  have hneg : ¬ (s < 0) := by omega
  have hun : s > s - 1 ∨ s ≥ s := Or.inr (le_refl s)
  simp only [parseRange, hspec, hsplit, hparse, finishRange]
  simp [hne, hsw, hp0ne, hneg, hun]

theorem serveFile_size_dash (s : Int) (hpos : 0 < s) (hmax : s ≤ int64Max) :
    serveFile (strOf "bytes=" ++ (intToDec s ++ ['-'])) s =
      { status := 416, contentLength := none,
        contentRangeHeader := some (strOf "bytes */" ++ intToDec s), bodyLen := 0 } := by
  simp only [serveFile, parseRange_size_dash s hpos hmax]

/-- Claim C8: for a playback file of size `s > 0` (a Go `int64`, hence
`s ≤ 2^63 − 1`): `Range: bytes=0-0` is answered 206 with exactly one byte
and `Content-Range: bytes 0-0/s`; `Range: bytes=s-` is answered 416; an
absent Range header is answered 200 with the full `s` bytes. -/
theorem playback_range_boundaries (s : Int) (hpos : 0 < s) (hmax : s ≤ int64Max) :
    serveFile (strOf "bytes=0-0") s =
      { status := 206, contentLength := some 1,
        contentRangeHeader := some (strOf "bytes 0-0/" ++ intToDec s), bodyLen := 1 } ∧
    serveFile (strOf "bytes=" ++ (intToDec s ++ ['-'])) s =
      { status := 416, contentLength := none,
        contentRangeHeader := some (strOf "bytes */" ++ intToDec s), bodyLen := 0 } ∧
    serveFile [] s =
      { status := 200, contentLength := some s, contentRangeHeader := none, bodyLen := s } :=
  ⟨serveFile_first_byte s hpos, serveFile_size_dash s hpos hmax, rfl⟩

/-- Concrete instance at size 5: one byte for `bytes=0-0`, 416 for
`bytes=5-`, 200 with all 5 bytes without a Range header. -/
theorem playback_range_boundaries_witness :
    serveFile (strOf "bytes=0-0") 5 =
      { status := 206, contentLength := some 1,
        contentRangeHeader := some (strOf "bytes 0-0/" ++ intToDec 5), bodyLen := 1 } ∧
    serveFile (strOf "bytes=" ++ (intToDec 5 ++ ['-'])) 5 =
      { status := 416, contentLength := none,
        contentRangeHeader := some (strOf "bytes */" ++ intToDec 5), bodyLen := 0 } ∧
    serveFile [] 5 =
      { status := 200, contentLength := some 5, contentRangeHeader := none, bodyLen := 5 } :=
  playback_range_boundaries 5 (by norm_num) (by norm_num [int64Max])

end Heimdex

namespace Heimdex

/-! ## Theorems: invalid Range headers -/

theorem parseRange_invalid_of (header : List Char) (size : Int)
    (h : syntacticallyInvalid header) :
    parseRange header size = .error .invalid := by
  obtain ⟨hne, hcase⟩ := h
  by_cases hsw : goStartsWith header (strOf "bytes=")
  · have hbu : boundsUnparsable (rangeSpecOf header) := by
      rcases hcase with hf | hb
      · rw [hsw] at hf; cases hf
      · exact hb
    rw [parseRange, if_neg hne, if_neg (by simp [hsw])]
    rcases hsp : splitOnChar '-' (rangeSpecOf header) with _ | ⟨p0, _ | ⟨p1, _ | _⟩⟩
    · rfl
    · rfl
    · rw [boundsUnparsable, hsp] at hbu
      dsimp only at hbu ⊢
      by_cases hp0 : p0 = []
      · rw [if_pos hp0] at hbu ⊢
        rw [hbu]
      · rw [if_neg hp0] at hbu ⊢
        cases hq0 : goParseInt p0 with
        | none => rfl
        | some v =>
            rcases hbu with hbu | ⟨hp1ne, hp1⟩
            · rw [hq0] at hbu; cases hbu
            · dsimp only
              by_cases hv : v < 0
              · rw [if_pos hv]
              · rw [if_neg hv, if_neg hp1ne, hp1]
    · rfl
  · rw [parseRange, if_neg hne, if_pos (by simp [hsw])]

/-- Claim C9: for every syntactically invalid non-empty Range header — one
that does not start with `bytes=`, or whose bounds do not parse —
`ParseRange` returns `ErrInvalidRange` and `ServeFile` ignores the header,
responding 200 with the full file content rather than an error status. -/
theorem invalid_range_served_full (header : List Char) (size : Int)
    (h : syntacticallyInvalid header) :
    parseRange header size = .error .invalid ∧
    serveFile header size =
      { status := 200, contentLength := some size, contentRangeHeader := none,
        bodyLen := size } := by
  have hp := parseRange_invalid_of header size h
  exact ⟨hp, by simp only [serveFile, hp]⟩

/-- Concrete instance: the malformed header `garbage` is parsed as invalid
and answered 200 with the full content. -/
theorem invalid_range_served_full_witness :
    parseRange (strOf "garbage") 5 = .error .invalid ∧
    serveFile (strOf "garbage") 5 =
      { status := 200, contentLength := some 5, contentRangeHeader := none,
        bodyLen := 5 } :=
  invalid_range_served_full (strOf "garbage") 5 ⟨by decide, Or.inl (by decide)⟩

end Heimdex
